import Mathlib

/-!
Shallow embedding of the client-management application core:
the per-client statistics aggregation (`src/app/lib/clients-data.ts`,
`fetchClientsWithStats`), the client-table view model (the `ClientsTable`
component: filter, sort, paginate, select-all), and the mutation
operations (`create-client.ts`, `create-project.ts`,
`update-client-status.ts`, `archive-client.ts`).

Modelling conventions:
- TypeScript `T | null` fields become `Option T`.
- JavaScript numbers become `Int` (budgets, date instants) or `Nat`
  (counts).  Date-typed table columns are compared in the source via
  `new Date(s).getTime()`; the table model therefore carries the
  underlying instant (an `Int`, negative for pre-1970 dates) instead of
  the raw string.  The aggregation, which compares ISO date strings
  lexicographically, keeps `Option String`.
- JavaScript truthiness tests on strings / nullable numbers are made
  explicit (`""`, `null` and `0` are falsy).
- `Array.prototype.sort` with a comparator `cmp` (stable per ES2019) is
  modelled by `List.insertionSort` with the relation `cmp a b ≤ 0`,
  which inserts earlier elements before later equal ones, i.e. is
  stable in the same sense.
- The external data store is a parameter: each operation takes the
  outcome of its single data-access call as an argument (`ok` row,
  store error with code and message, or a thrown exception).
-/

namespace ClientMgmt

/-- Whether `needle` occurs as a contiguous sublist of `haystack`. -/
def charsInclude (haystack needle : List Char) : Bool :=
  match haystack with
  | [] => needle.isEmpty
  | h@(_ :: t) => needle.isPrefixOf h || charsInclude t needle

/-- JavaScript `haystack.includes(needle)` on strings. -/
def jsIncludes (haystack needle : String) : Bool :=
  charsInclude haystack.toList needle.toList

/-! ### Data model (`src/app/lib/types.ts`) -/

inductive ClientStatus where
  | active
  | non_active
deriving DecidableEq

/-- The client status string, as compared by the table sort (`a.status`). -/
def statusStr : ClientStatus → String
  | .active => "active"
  | .non_active => "non_active"

inductive ProjectStatus where
  | completed
  | non_completed
deriving DecidableEq

/-- A project row as consumed by the aggregation in `fetchClientsWithStats`
(timestamp bookkeeping fields that no claim touches are elided). -/
structure Project where
  id : String
  client_id : String
  name : String
  description : Option String
  budget : Option Int
  currency : String
  status : ProjectStatus
  start_date : Option String
  end_date : Option String
deriving DecidableEq

/-! ### Aggregation engine (`src/app/lib/clients-data.ts`, lines 40-83)

These definitions model the per-client statistics computed inside
`clients.map((client) => ...)` as functions of the list of that
client projects (`clientProjects`). -/

/-- JavaScript truthiness of a nullable number: `null` and `0` are falsy. -/
def truthyNum : Option Int → Bool
  | none => false
  | some b => b != 0

/-- The guard `if (p.currency && p.budget)` of the currency tally:
non-empty currency string and truthy budget. -/
def tallied (p : Project) : Bool :=
  p.currency != "" && truthyNum p.budget

/-- One step of `currencyCounts[p.currency] = (currencyCounts[p.currency] || 0) + 1`
on the insertion-ordered entry list of the record object: increment the
existing entry in place, else append a new entry with count 1. -/
def bump : List (String × Nat) → String → List (String × Nat)
  | [], c => [(c, 1)]
  | (k, v) :: t, c => if k = c then (k, v + 1) :: t else (k, v) :: bump t c

/-- The `currencyCounts` record built by the `forEach` loop, as its
insertion-ordered entry list (currency codes are not array-index-like
strings, so `Object.entries` enumerates them in insertion order). -/
def currencyCounts (ps : List Project) : List (String × Nat) :=
  ps.foldl (fun counts p => if tallied p then bump counts p.currency else counts) []

/-- The relation under which `.sort((a, b) => b[1] - a[1])` keeps `a`
before `b`: the comparator value is nonpositive, i.e. descending count. -/
def countDesc (a b : String × Nat) : Prop :=
  b.2 ≤ a.2

instance : DecidableRel countDesc :=
  fun a b => inferInstanceAs (Decidable (b.2 ≤ a.2))

/-- The `primaryCurrency` computation: if the tally record is non-empty,
the first key of its entries stably sorted by descending count, else
the default currency. -/
def primaryCurrency (ps : List Project) : String :=
  let counts := currencyCounts ps
  if counts.length > 0 then
    match List.insertionSort countDesc counts with
    | [] => "USD"
    | e :: _ => e.1
  else "USD"

/-- The `totalBudget` computation: filter to projects whose currency
equals the primary currency and whose budget is truthy, then sum
`p.budget || 0` (the trailing `|| 0` on the reduce result is the
identity on integers whose falsy value is `0` itself). -/
def totalBudget (ps : List Project) : Int :=
  ((ps.filter fun p => p.currency == primaryCurrency ps && truthyNum p.budget).foldl
    (fun s p => s + p.budget.getD 0) 0)

/-- JavaScript truthiness of a nullable string: `null` and `""` are falsy. -/
def truthyStr : Option String → Bool
  | none => false
  | some s => s != ""

/-- The `dates` intermediate list: start/end pairs of projects for which
`d.start || d.end` is truthy. -/
def projectDates (ps : List Project) : List (Option String × Option String) :=
  (ps.map fun p => (p.start_date, p.end_date)).filter fun d => truthyStr d.1 || truthyStr d.2

/-- JavaScript `list[0] || null`: `undefined` on the empty list and the
falsy empty string both collapse to `null`. -/
def jsHeadOrNull : List String → Option String
  | [] => none
  | s :: _ => if s = "" then none else some s

/-- The `earliestStart` computation: guard on `dates.length > 0`, collect
the non-null starts, sort lexicographically, take `[0] || null`. -/
def earliestStart (ps : List Project) : Option String :=
  let dates := projectDates ps
  if dates.length > 0 then
    jsHeadOrNull (List.insertionSort (fun a b : String => a ≤ b) ((dates.map Prod.fst).filterMap id))
  else none

/-- The `latestEnd` computation: as `earliestStart` but over end dates,
with `.sort().reverse()[0] || null`. -/
def latestEnd (ps : List Project) : Option String :=
  let dates := projectDates ps
  if dates.length > 0 then
    jsHeadOrNull ((List.insertionSort (fun a b : String => a ≤ b) ((dates.map Prod.snd).filterMap id)).reverse)
  else none

/-! ### Specification-side aggregation definitions

Used to state the claims about the aggregation independently of the
implementation above; `specPrimaryBy` is parameterised by the tally
condition so that both the claim as written (non-null budget) and the
behaviour of the code (truthy budget) can be expressed. -/

/-- Occurrence count of currency `c` among the projects selected by `sel`. -/
def tallyBy (sel : Project → Bool) (ps : List Project) (c : String) : Nat :=
  (ps.filter fun p => sel p && p.currency == c).length

/-- The distinct currencies of the projects selected by `sel`, in order of
first occurrence. -/
def firstSeenBy (sel : Project → Bool) (ps : List Project) : List String :=
  ((ps.filter sel).map Project.currency).foldl
    (fun acc c => if c ∈ acc then acc else acc ++ [c]) []

/-- The specification text of the primary currency: the currency with the
highest tally among projects selected by `sel`, ties broken by first
occurrence in input order, defaulting to USD when no project is selected. -/
def specPrimaryBy (sel : Project → Bool) (ps : List Project) : String :=
  match (firstSeenBy sel ps).filter
      (fun c => (firstSeenBy sel ps).all fun c2 => tallyBy sel ps c2 ≤ tallyBy sel ps c) with
  | [] => "USD"
  | c :: _ => c

/-- The tally condition exactly as claim C1 states it: a non-null budget
(the currency field is non-nullable in the data model). -/
def nonNullBudget (p : Project) : Bool :=
  p.budget.isSome

/-- The count stored in the tally record for a given currency code
(zero when absent): the record lookup `currencyCounts[c] || 0`. -/
def countVal (l : List (String × Nat)) (c : String) : Nat :=
  match l.find? (fun e => e.1 == c) with
  | none => 0
  | some e => e.2

/-- Minimum of a list, as an option; the specification reading of
"minimum of all non-null dates, or null if none exist". -/
def olMin {α : Type} [LinearOrder α] : List α → Option α
  | [] => none
  | a :: l =>
    some (match olMin l with
      | none => a
      | some m => min a m)

/-- Maximum of a list, as an option. -/
def olMax {α : Type} [LinearOrder α] : List α → Option α
  | [] => none
  | a :: l =>
    some (match olMax l with
      | none => a
      | some m => max a m)

/-! ### Table view model (the `ClientsTable` component)

`filteredClients`, `sortedClients` and `paginatedClients` model the
three `useMemo` stages; `handleSelectAll` models the select-all
checkbox handler over the current selection and the visible page. -/

/-- A client-with-stats row as consumed by the table.  The three
date-typed columns are carried as the underlying instants that the sort
comparator extracts via `new Date(s).getTime()`. -/
structure ClientWithStats where
  id : String
  name : String
  email : String
  phone : String
  website_url : Option String
  status : ClientStatus
  notes : Option String
  projects_count : Nat
  total_budget : Int
  created_at : Int
  earliest_start : Option Int
  latest_end : Option Int
deriving DecidableEq

inductive StatusFilter where
  | all
  | active
  | non_active
deriving DecidableEq

/-- The status part of the filter predicate:
`if (statusFilter !== 'all' && client.status !== statusFilter) return false`. -/
def statusPass (f : StatusFilter) (s : ClientStatus) : Bool :=
  match f with
  | .all => true
  | .active => s == ClientStatus.active
  | .non_active => s == ClientStatus.non_active

/-- The search part of the filter predicate: vacuously true for the falsy
empty query, else a case-insensitive substring match against name,
email or phone. -/
def searchPass (q : String) (c : ClientWithStats) : Bool :=
  if q == "" then true
  else
    let query := q.toLower
    jsIncludes c.name.toLower query || jsIncludes c.email.toLower query ||
      jsIncludes c.phone.toLower query

/-- The `filteredClients` memo. -/
def filteredClients (clients : List ClientWithStats) (searchQuery : String)
    (statusFilter : StatusFilter) : List ClientWithStats :=
  clients.filter fun c => statusPass statusFilter c.status && searchPass searchQuery c

inductive SortColumn where
  | name
  | status
  | email
  | phone
  | projects_count
  | total_budget
  | created_at
  | earliest_start
  | latest_end
deriving DecidableEq

inductive SortDirection where
  | asc
  | desc
deriving DecidableEq

/-- The tail of the sort comparator:
`if (aValue < bValue) return asc ? -1 : 1; if (aValue > bValue) return asc ? 1 : -1; return 0`. -/
def cmpOrd {β : Type} [LinearOrder β] (dir : SortDirection) (x y : β) : Int :=
  if x < y then (match dir with | .asc => -1 | .desc => 1)
  else if y < x then (match dir with | .asc => 1 | .desc => -1)
  else 0

/-- The comparator passed to `[...filteredClients].sort`, per sort column:
name and email compare lowercased, status compares its string form,
phone compares raw, counts and budgets compare numerically, and the
date columns compare underlying instants with null dates mapped to `0`. -/
def compareClients (col : SortColumn) (dir : SortDirection) (a b : ClientWithStats) : Int :=
  match col with
  | .name => cmpOrd dir a.name.toLower b.name.toLower
  | .status => cmpOrd dir (statusStr a.status) (statusStr b.status)
  | .email => cmpOrd dir a.email.toLower b.email.toLower
  | .phone => cmpOrd dir a.phone b.phone
  | .projects_count => cmpOrd dir a.projects_count b.projects_count
  | .total_budget => cmpOrd dir a.total_budget b.total_budget
  | .created_at => cmpOrd dir a.created_at b.created_at
  | .earliest_start => cmpOrd dir (a.earliest_start.getD 0) (b.earliest_start.getD 0)
  | .latest_end => cmpOrd dir (a.latest_end.getD 0) (b.latest_end.getD 0)

/-- The relation under which the stable sort keeps `a` before `b`:
comparator value nonpositive. -/
def sortLe (col : SortColumn) (dir : SortDirection) (a b : ClientWithStats) : Prop :=
  compareClients col dir a b ≤ 0

instance (col : SortColumn) (dir : SortDirection) : DecidableRel (sortLe col dir) :=
  fun a b => inferInstanceAs (Decidable (compareClients col dir a b ≤ 0))

/-- The `sortedClients` memo: the filtered list unchanged when no sort
column is set, else stably sorted by the comparator. -/
def sortedClients (filtered : List ClientWithStats) (col : Option SortColumn)
    (dir : SortDirection) : List ClientWithStats :=
  match col with
  | none => filtered
  | some c => List.insertionSort (sortLe c dir) filtered

/-- The `paginatedClients` memo:
`sortedClients.slice((currentPage - 1) * itemsPerPage, currentPage * itemsPerPage)`. -/
def paginatedClients (sortedList : List ClientWithStats) (currentPage itemsPerPage : Nat) :
    List ClientWithStats :=
  (sortedList.drop ((currentPage - 1) * itemsPerPage)).take itemsPerPage

/-- The set of ids on the visible page, `new Set(paginatedClients.map((c) => c.id))`. -/
def visibleIds (paginated : List ClientWithStats) : Finset String :=
  (paginated.map fun c => c.id).toFinset

/-- The `handleSelectAll` handler: clear the selection when its size
equals the visible row count, else select exactly the visible ids. -/
def handleSelectAll (selectedIds : Finset String) (paginated : List ClientWithStats) :
    Finset String :=
  if selectedIds.card = paginated.length then ∅ else visibleIds paginated

/-- The date key the comparator uses for a nullable date column. -/
def dateKey (o : Option Int) : Int :=
  o.getD 0

/-- The key claim C6 ascribes to a nullable date column: null as the
earliest possible value, i.e. bottom. -/
def nullBotKey (o : Option Int) : WithBot Int :=
  match o with
  | none => ⊥
  | some t => (t : WithBot Int)

/-- The instant a date sort column extracts from a row. -/
def colDateKey (col : SortColumn) (c : ClientWithStats) : Int :=
  match col with
  | .created_at => c.created_at
  | .earliest_start => dateKey c.earliest_start
  | .latest_end => dateKey c.latest_end
  | _ => 0

/-! ### Mutation operations

Each operation makes exactly one data-access call; the call outcome is
a parameter.  `thrown` models an exception raised inside the `try`
block (for the archive operations, which have no `try`, it models an
exception raised before or at the data-access call). -/

/-- The row returned by the data store on a successful insert or update
(only its identity is consumed). -/
structure DbRow where
  id : String
deriving DecidableEq

/-- Outcome of a data-access call made inside a `try` block: a returned
row, a store error with code and message, or a thrown exception whose
message is `some m` for an `Error` and `none` for a non-`Error` value. -/
inductive DbOutcome where
  | ok (row : DbRow)
  | err (code message : String)
  | thrown (message : Option String)
deriving DecidableEq

/-- The `error instanceof Error ? error.message : 'An unexpected error occurred'`
stringification of a caught exception. -/
def caughtMsg (m : Option String) : String :=
  m.getD ("An unexpected error occurred")

/-- JavaScript `s?.trim() || null` on an optional string. -/
def jsTrimOrNull : Option String → Option String
  | none => none
  | some s => if s.trim = "" then none else some s.trim

/-- JavaScript `n || null` on an optional number: `0` collapses to `null`. -/
def jsNumOrNull : Option Int → Option Int
  | none => none
  | some b => if b = 0 then none else some b

/-- JavaScript `s || null` on an optional string: `""` collapses to `null`. -/
def jsStrOrNull : Option String → Option String
  | none => none
  | some s => if s = "" then none else some s

structure CreateClientData where
  name : String
  email : String
  phone : String
  website_url : Option String
  status : ClientStatus
  notes : Option String
deriving DecidableEq

/-- The normalized payload of the client insert/update call. -/
structure ClientWriteRow where
  name : String
  email : String
  phone : String
  website_url : Option String
  status : ClientStatus
  notes : Option String
deriving DecidableEq

/-- Normalization applied by `createClient` and `updateClient`: trim,
lowercase the email, blank-to-null for the optional fields. -/
def clientWriteRow (d : CreateClientData) : ClientWriteRow :=
  { name := d.name.trim
    email := d.email.trim.toLower
    phone := d.phone.trim
    website_url := jsTrimOrNull d.website_url
    status := d.status
    notes := jsTrimOrNull d.notes }

structure CreateClientResult where
  success : Bool
  error : Option String := none
  clientId : Option String := none
deriving DecidableEq

def emailConflictMsg : String :=
  "A client with this email already exists. Please use a different email."

def phoneConflictMsg : String :=
  "A client with this phone number already exists. Please use a different phone number."

/-- The error-to-result mapping shared by `createClient` and
`updateClient`: Postgres error code 23505 with the conflicting column
named in the message maps to the field-specific text; any other store
error maps to `error.message || fallback`; a thrown exception is caught
and stringified. -/
def clientWriteResult (fallback : String) (outcome : DbOutcome) : CreateClientResult :=
  match outcome with
  | .thrown m => { success := false, error := some (caughtMsg m) }
  | .err code message =>
    if code = "23505" && jsIncludes message ("email") then
      { success := false, error := some emailConflictMsg }
    else if code = "23505" && jsIncludes message ("phone") then
      { success := false, error := some phoneConflictMsg }
    else
      { success := false, error := some (if message = "" then fallback else message) }
  | .ok row => { success := true, clientId := some row.id }

/-- The `createClient` operation: normalize, issue the insert, map the
outcome to the uniform result shape. -/
def createClient (data : CreateClientData) (db : ClientWriteRow → DbOutcome) :
    CreateClientResult :=
  clientWriteResult ("Failed to create client") (db (clientWriteRow data))

/-- The `updateClient` operation: normalize, issue the update for the
given id, map the outcome to the uniform result shape. -/
def updateClient (clientId : String) (data : CreateClientData)
    (db : String → ClientWriteRow → DbOutcome) : CreateClientResult :=
  clientWriteResult ("Failed to update client") (db clientId (clientWriteRow data))

structure CreateProjectData where
  client_id : String
  name : String
  description : Option String
  budget : Option Int
  currency : String
  status : ProjectStatus
  start_date : Option String
  end_date : Option String
deriving DecidableEq

/-- The normalized payload of the project insert call. -/
structure ProjectInsertRow where
  client_id : String
  name : String
  description : Option String
  budget : Option Int
  currency : String
  status : ProjectStatus
  start_date : Option String
  end_date : Option String
deriving DecidableEq

def projectInsertRow (d : CreateProjectData) : ProjectInsertRow :=
  { client_id := d.client_id
    name := d.name.trim
    description := jsTrimOrNull d.description
    budget := jsNumOrNull d.budget
    currency := d.currency
    status := d.status
    start_date := jsStrOrNull d.start_date
    end_date := jsStrOrNull d.end_date }

/-- The normalized payload of the project update call (no client id). -/
structure ProjectUpdateRow where
  name : String
  description : Option String
  budget : Option Int
  currency : String
  status : ProjectStatus
  start_date : Option String
  end_date : Option String
deriving DecidableEq

def projectUpdateRow (d : CreateProjectData) : ProjectUpdateRow :=
  { name := d.name.trim
    description := jsTrimOrNull d.description
    budget := jsNumOrNull d.budget
    currency := d.currency
    status := d.status
    start_date := jsStrOrNull d.start_date
    end_date := jsStrOrNull d.end_date }

structure CreateProjectResult where
  success : Bool
  error : Option String := none
  projectId : Option String := none
deriving DecidableEq

/-- The error-to-result mapping of `createProject` and `updateProject`:
no uniqueness special case, `error.message || fallback` for store
errors, catch-all for exceptions. -/
def projectWriteResult (fallback : String) (outcome : DbOutcome) : CreateProjectResult :=
  match outcome with
  | .thrown m => { success := false, error := some (caughtMsg m) }
  | .err _ message =>
    { success := false, error := some (if message = "" then fallback else message) }
  | .ok row => { success := true, projectId := some row.id }

def createProject (data : CreateProjectData) (db : ProjectInsertRow → DbOutcome) :
    CreateProjectResult :=
  projectWriteResult ("Failed to create project") (db (projectInsertRow data))

def updateProject (projectId : String) (data : CreateProjectData)
    (db : String → ProjectUpdateRow → DbOutcome) : CreateProjectResult :=
  projectWriteResult ("Failed to update project") (db projectId (projectUpdateRow data))

structure UpdateStatusResult where
  success : Bool
  error : Option String := none
deriving DecidableEq

/-- Outcome of a data-access call that returns no row. -/
inductive WriteOutcome where
  | ok
  | err (message : String)
  | thrown (message : Option String)
deriving DecidableEq

/-- The `updateClientStatus` operation. -/
def updateClientStatus (clientId : String) (status : ClientStatus)
    (db : String → ClientStatus → WriteOutcome) : UpdateStatusResult :=
  match db clientId status with
  | .thrown m => { success := false, error := some (caughtMsg m) }
  | .err message =>
    { success := false, error := some (if message = "" then "Failed to update client status" else message) }
  | .ok => { success := true }

/-! ### Archive operations (`src/app/lib/archive-client.ts`)

These two operations have no `try`/`catch`; a store error is rethrown
as an `Error` and an exception raised before reaching the store
propagates unchanged.  They are modelled operationally over an explicit
store so that "no request issued" is observable. -/

/-- A stored client row, reduced to what archiving touches. -/
structure StoredClient where
  id : String
  archived_at : Option Int
deriving DecidableEq

/-- The clients collection of the data store. -/
structure Store where
  clients : List StoredClient
deriving DecidableEq

/-- The store-side effect of `update({ archived_at: now }).in('id', clientIds)`. -/
def dbArchiveIn (store : Store) (clientIds : List String) (now : Int) : Store :=
  { clients := store.clients.map fun c =>
      if c.id ∈ clientIds then { c with archived_at := some now } else c }

/-- Outcome of the archive update call: success, a store error with
message, or an exception thrown before or at the call. -/
inductive ArchiveOutcome where
  | ok
  | err (message : String)
  | thrown (message : String)
deriving DecidableEq

/-- Observable behaviour of an archive operation: the returned or thrown
value (`Except.error` is an uncaught exception message), the resulting
store, and how many data-access requests were issued. -/
structure ArchiveRun where
  result : Except String Unit
  store : Store
  requests : Nat

/-- The `archiveClient` operation: one update call, throwing
`Failed to archive client: ...` on a store error. -/
def archiveClient (clientId : String) (now : Int) (store : Store)
    (outcome : ArchiveOutcome) : ArchiveRun :=
  match outcome with
  | .thrown m => { result := Except.error m, store := store, requests := 1 }
  | .err m =>
    { result := Except.error ("Failed to archive client: " ++ m), store := store, requests := 1 }
  | .ok => { result := Except.ok (), store := dbArchiveIn store [clientId] now, requests := 1 }

/-- The bulk `archiveClients` operation: an early return on the empty id
list, before the data store is touched, else one batched update call,
throwing `Failed to archive clients: ...` on a store error. -/
def archiveClients (clientIds : List String) (now : Int) (store : Store)
    (outcome : ArchiveOutcome) : ArchiveRun :=
  if clientIds.length = 0 then { result := Except.ok (), store := store, requests := 0 }
  else
    match outcome with
    | .thrown m => { result := Except.error m, store := store, requests := 1 }
    | .err m =>
      { result := Except.error ("Failed to archive clients: " ++ m), store := store, requests := 1 }
    | .ok => { result := Except.ok (), store := dbArchiveIn store clientIds now, requests := 1 }

/-! ### Concrete inputs used by witnesses and counterexamples -/

/-- A project with the given currency, budget and dates; the remaining
fields are irrelevant to the aggregation. -/
def mkProject (cur : String) (b : Option Int) (sd ed : Option String) : Project :=
  { id := "p"
    client_id := "c"
    name := "n"
    description := none
    budget := b
    currency := cur
    status := ProjectStatus.completed
    start_date := sd
    end_date := ed }

/-- Projects on which the truthiness tally and the claimed non-null tally
disagree: with budget-0 rows counted, USD would win two to one. -/
def exProjectsC1 : List Project :=
  [mkProject ("EUR") (some 5) none none,
   mkProject ("USD") (some 0) none none,
   mkProject ("USD") (some 0) none none]

/-- The worked example of the specification: two USD budgets and one EUR budget. -/
def exProjectsC2 : List Project :=
  [mkProject ("USD") (some 100) none none,
   mkProject ("USD") (some 50) none none,
   mkProject ("EUR") (some 1000) none none]

/-- The worked example of the specification: start dates 2024-03-01,
2024-01-15 and null. -/
def exProjectsC3 : List Project :=
  [mkProject ("USD") (some 10) (some ("2024-03-01")) (some ("2024-04-01")),
   mkProject ("USD") (some 20) (some ("2024-01-15")) (some ("2024-07-01")),
   mkProject ("USD") (some 30) none none]

/-- A client row with the given identity, name, status and earliest-start
instant; the remaining fields are fixed. -/
def mkClient (i nm : String) (st : ClientStatus) (es : Option Int) : ClientWithStats :=
  { id := i
    name := nm
    email := "e"
    phone := "p"
    website_url := none
    status := st
    notes := none
    projects_count := 1
    total_budget := 0
    created_at := 0
    earliest_start := es
    latest_end := none }

/-- A client whose earliest start is an instant before the Unix epoch
(a pre-1970 date has a negative `getTime` value). -/
def clientPre1970 : ClientWithStats :=
  mkClient ("a") ("a") ClientStatus.active (some (-1))

/-- A client with no earliest start date. -/
def clientNullDate : ClientWithStats :=
  mkClient ("b") ("b") ClientStatus.active none

/-- A two-row visible page with ids a and b. -/
def exPageC8 : List ClientWithStats :=
  [clientPre1970, clientNullDate]

/-- A selection of two ids from some other page: same size as the visible
page, but not containing its ids. -/
def exSelectionC8 : Finset String :=
  {"x", "y"}

/-- Forty-seven clients, the pagination example of the specification. -/
def demoClients : List ClientWithStats :=
  (List.range 47).map fun n => mkClient (toString n) ("c") ClientStatus.active none

/-- A client form payload for exercising the mutation operations. -/
def exClientData : CreateClientData :=
  { name := "N"
    email := "E"
    phone := "P"
    website_url := none
    status := ClientStatus.active
    notes := none }

/-! ### Generic lemmas about the stable sort

`List.insertionSort r` with `r a b := cmp a b ≤ 0` inserts each element
before the equal elements that followed it, which is exactly the stable
sort semantics of `Array.prototype.sort`.  The lemmas below are stated
for a relation that is the pullback of a linear order along a key
function `k`, which covers every comparator in the source. -/

section SortKeyLemmas

variable {α β : Type} [LinearOrder β] {k : α → β} {r : α → α → Prop} [DecidableRel r]

omit [DecidableRel r] in
theorem keyTotal (hr : ∀ a b, r a b ↔ k a ≤ k b) : IsTotal α r :=
  ⟨fun a b => by rw [hr a b, hr b a]; exact le_total (k a) (k b)⟩

omit [DecidableRel r] in
theorem keyTrans (hr : ∀ a b, r a b ↔ k a ≤ k b) : IsTrans α r :=
  ⟨fun a b c hab hbc => by
    rw [hr a b] at hab
    rw [hr b c] at hbc
    rw [hr a c]
    exact le_trans hab hbc⟩

/-- The stable sort output is sorted by the key. -/
theorem sortedKey_insertionSort (hr : ∀ a b, r a b ↔ k a ≤ k b) (l : List α) :
    List.Sorted (fun a b => k a ≤ k b) (List.insertionSort r l) := by
  haveI := keyTotal hr
  haveI := keyTrans hr
  exact (List.sorted_insertionSort r l).imp fun h => (hr _ _).mp h

/-- Sorting a list that is already sorted by the key changes nothing. -/
theorem insertionSort_sorted_eq (hr : ∀ a b, r a b ↔ k a ≤ k b) (l : List α)
    (hl : List.Sorted (fun a b => k a ≤ k b) l) : List.insertionSort r l = l :=
  List.Sorted.insertionSort_eq (hl.imp fun h => (hr _ _).mpr h)

/-- The stable sort is idempotent. -/
theorem insertionSort_idem (hr : ∀ a b, r a b ↔ k a ≤ k b) (l : List α) :
    List.insertionSort r (List.insertionSort r l) = List.insertionSort r l :=
  insertionSort_sorted_eq hr _ (sortedKey_insertionSort hr l)

/-- Inserting an element keeps the subsequence of any fixed key intact,
with the inserted element in front of its equals.  Only reflexivity of
the relation on equal keys is needed, so this applies to both sort
directions with the same key. -/
theorem filter_key_orderedInsert (hrefl : ∀ a b, k a = k b → r a b) (a : α) (l : List α)
    (v : β) :
    (List.orderedInsert r a l).filter (fun x => decide (k x = v)) =
      if k a = v then a :: l.filter (fun x => decide (k x = v))
      else l.filter (fun x => decide (k x = v)) := by
  induction l with
  | nil =>
    by_cases h : k a = v <;> simp [h]
  | cons b t ih =>
    simp only [List.orderedInsert]
    by_cases hab : r a b
    · rw [if_pos hab]
      by_cases h : k a = v <;> simp [h, List.filter_cons]
    · rw [if_neg hab]
      by_cases h : k a = v
      · have hbv : ¬ (k b = v) := by
          intro hbv
          exact hab (hrefl a b (h.trans hbv.symm))
        simp [List.filter_cons, hbv, ih, h]
      · simp [List.filter_cons, ih, h]

/-- Stability of the sort: for every key value, the subsequence of
elements carrying that key is unchanged. -/
theorem filter_key_insertionSort (hrefl : ∀ a b, k a = k b → r a b) (l : List α) (v : β) :
    (List.insertionSort r l).filter (fun x => decide (k x = v)) =
      l.filter (fun x => decide (k x = v)) := by
  induction l with
  | nil => rfl
  | cons a t ih =>
    simp only [List.insertionSort]
    rw [filter_key_orderedInsert hrefl]
    by_cases h : k a = v
    · rw [if_pos h, ih]
      simp [List.filter_cons, h]
    · rw [if_neg h, ih]
      simp [List.filter_cons, h]

end SortKeyLemmas

/-! ### The head of an ascending sort is the minimum, its last element the maximum. -/

theorem head?_orderedInsert {γ : Type} [LinearOrder γ] (a : γ) (s : List γ) :
    (List.orderedInsert (fun x y : γ => x ≤ y) a s).head? =
      some (match s.head? with | none => a | some b => min a b) := by
  cases s with
  | nil => rfl
  | cons b t =>
    show (List.orderedInsert (fun x y : γ => x ≤ y) a (b :: t)).head? = some (min a b)
    simp only [List.orderedInsert]
    by_cases h : a ≤ b
    · rw [if_pos h]
      simp [min_eq_left h]
    · rw [if_neg h]
      simp [min_eq_right (le_of_not_le h)]

theorem head?_insertionSort {γ : Type} [LinearOrder γ] (l : List γ) :
    (List.insertionSort (fun x y : γ => x ≤ y) l).head? = olMin l := by
  induction l with
  | nil => rfl
  | cons a t ih =>
    simp only [List.insertionSort]
    rw [head?_orderedInsert, ih]
    rfl

theorem olMax_spec {γ : Type} [LinearOrder γ] (l : List γ) (h : l ≠ []) :
    ∃ m, olMax l = some m ∧ m ∈ l ∧ ∀ x ∈ l, x ≤ m := by
  induction l with
  | nil => exact absurd rfl h
  | cons a t ih =>
    cases t with
    | nil =>
      refine ⟨a, rfl, List.mem_singleton.mpr rfl, ?_⟩
      intro x hx
      rw [List.mem_singleton.mp hx]
    | cons b t2 =>
      obtain ⟨m, hm, hmem, hle⟩ := ih (List.cons_ne_nil b t2)
      refine ⟨max a m, ?_, ?_, ?_⟩
      · show some (match olMax (b :: t2) with | none => a | some m0 => max a m0) = some (max a m)
        rw [hm]
      · rcases max_choice a m with hc | hc
        · rw [hc]
          exact List.mem_cons_self a _
        · rw [hc]
          exact List.mem_cons_of_mem a hmem
      · intro x hx
        rcases List.mem_cons.mp hx with hx | hx
        · rw [hx]
          exact le_max_left a m
        · exact le_trans (hle x hx) (le_max_right a m)

theorem sorted_le_getLast {γ : Type} [LinearOrder γ] :
    ∀ (s : List γ), List.Sorted (fun x y : γ => x ≤ y) s →
      ∀ g, s.getLast? = some g → ∀ x ∈ s, x ≤ g := by
  intro s
  induction s with
  | nil =>
    intro _ g hg
    exact absurd hg (by simp)
  | cons a t ih =>
    intro hs g hg x hx
    cases t with
    | nil =>
      have hga : g = a := by
        simp only [List.getLast?_singleton] at hg
        exact (Option.some_inj.mp hg).symm
      rw [List.mem_singleton.mp hx, hga]
    | cons b t2 =>
      rw [List.getLast?_cons_cons] at hg
      have hgmem : g ∈ b :: t2 := by
        obtain ⟨hne, hgl⟩ := List.mem_getLast?_eq_getLast hg
        rw [hgl]
        exact List.getLast_mem hne
      rcases List.mem_cons.mp hx with hxa | hxt
      · rw [hxa]
        exact List.rel_of_sorted_cons hs g hgmem
      · exact ih hs.of_cons g hg x hxt

theorem reverse_head?_insertionSort {γ : Type} [LinearOrder γ] (l : List γ) :
    ((List.insertionSort (fun x y : γ => x ≤ y) l).reverse).head? = olMax l := by
  rw [List.head?_reverse]
  cases hl : l with
  | nil => rfl
  | cons a t =>
    have hlne : l ≠ [] := by rw [hl]; exact List.cons_ne_nil a t
    have hsne : List.insertionSort (fun x y : γ => x ≤ y) l ≠ [] := by
      intro h0
      have hp := List.perm_insertionSort (fun x y : γ => x ≤ y) l
      rw [h0] at hp
      exact hlne hp.symm.eq_nil
    obtain ⟨m, hm, hmem, hle⟩ := olMax_spec l hlne
    have hglast := List.getLast?_eq_getLast_of_ne_nil hsne
    set g := (List.insertionSort (fun x y : γ => x ≤ y) l).getLast hsne with hgdef
    have hsorted : List.Sorted (fun x y : γ => x ≤ y) (List.insertionSort (fun x y : γ => x ≤ y) l) :=
      sortedKey_insertionSort (k := fun x : γ => x) (fun a b => Iff.rfl) l
    have hgmem : g ∈ l := (List.mem_insertionSort _).mp (List.getLast_mem hsne)
    have hgm : g = m := by
      apply le_antisymm (hle g hgmem)
      apply sorted_le_getLast _ hsorted g hglast
      exact (List.mem_insertionSort _).mpr hmem
    rw [← hl, hglast, hgm, hm]

/-! ### Characterisation of the comparator tail -/

theorem cmpOrd_asc_le {β : Type} [LinearOrder β] (x y : β) :
    cmpOrd SortDirection.asc x y ≤ 0 ↔ x ≤ y := by
  unfold cmpOrd
  rcases lt_trichotomy x y with h | h | h
  · rw [if_pos h]
    exact iff_of_true (by norm_num) h.le
  · rw [h, if_neg (lt_irrefl y), if_neg (lt_irrefl y)]
    exact iff_of_true le_rfl le_rfl
  · rw [if_neg (asymm h), if_pos h]
    exact iff_of_false (by norm_num) (not_le.mpr h)

theorem cmpOrd_desc_le {β : Type} [LinearOrder β] (x y : β) :
    cmpOrd SortDirection.desc x y ≤ 0 ↔ y ≤ x := by
  unfold cmpOrd
  rcases lt_trichotomy x y with h | h | h
  · rw [if_pos h]
    exact iff_of_false (by norm_num) (not_le.mpr h)
  · rw [h, if_neg (lt_irrefl y), if_neg (lt_irrefl y)]
    exact iff_of_true le_rfl le_rfl
  · rw [if_neg (asymm h), if_pos h]
    exact iff_of_true (by norm_num) h.le

/-! ### Claim theorems for the table engine -/

/-- C5: the table pipeline of filtering by status active and then
sorting by name ascending is idempotent: applied to its own output
(for any search query) it returns that output unchanged. -/
theorem C5_filter_sort_idempotent (clients : List ClientWithStats) (q : String) :
    sortedClients
        (filteredClients
          (sortedClients (filteredClients clients q StatusFilter.active)
            (some SortColumn.name) SortDirection.asc)
          q StatusFilter.active)
        (some SortColumn.name) SortDirection.asc =
      sortedClients (filteredClients clients q StatusFilter.active)
        (some SortColumn.name) SortDirection.asc := by
  have hr : ∀ a b : ClientWithStats,
      sortLe SortColumn.name SortDirection.asc a b ↔ a.name.toLower ≤ b.name.toLower :=
    fun a b => cmpOrd_asc_le a.name.toLower b.name.toLower
  simp only [sortedClients]
  have hfix : filteredClients
      (List.insertionSort (sortLe SortColumn.name SortDirection.asc)
        (filteredClients clients q StatusFilter.active)) q StatusFilter.active =
      List.insertionSort (sortLe SortColumn.name SortDirection.asc)
        (filteredClients clients q StatusFilter.active) := by
    apply List.filter_eq_self.mpr
    intro c hc
    have hmem : c ∈ filteredClients clients q StatusFilter.active :=
      (List.mem_insertionSort _).mp hc
    simp only [filteredClients] at hmem
    exact (List.mem_filter.mp hmem).2
  rw [hfix]
  exact insertionSort_idem hr _

/-- C6 (amended): for every date sort column the table orders records by
the underlying instant of the date, with null dates keyed as the Unix
epoch instant 0; the output is a permutation of the input, sorted by
that key in the requested direction, and stable: the subsequence of
records sharing any key value is unchanged. -/
theorem C6_date_sort (l : List ClientWithStats) (col : SortColumn) (dir : SortDirection)
    (hcol : col = SortColumn.created_at ∨ col = SortColumn.earliest_start ∨
      col = SortColumn.latest_end) :
    (sortedClients l (some col) dir).Perm l ∧
    (dir = SortDirection.asc →
      List.Sorted (fun a b => colDateKey col a ≤ colDateKey col b)
        (sortedClients l (some col) dir)) ∧
    (dir = SortDirection.desc →
      List.Sorted (fun a b => colDateKey col b ≤ colDateKey col a)
        (sortedClients l (some col) dir)) ∧
    (∀ v : Int,
      (sortedClients l (some col) dir).filter (fun c => decide (colDateKey col c = v)) =
        l.filter (fun c => decide (colDateKey col c = v))) := by
  simp only [sortedClients]
  have hasc : dir = SortDirection.asc → ∀ a b : ClientWithStats,
      sortLe col dir a b ↔ colDateKey col a ≤ colDateKey col b := by
    intro hdir a b
    subst hdir
    rcases hcol with h | h | h <;> subst h <;>
      exact cmpOrd_asc_le _ _
  have hdesc : dir = SortDirection.desc → ∀ a b : ClientWithStats,
      sortLe col dir a b ↔
        OrderDual.toDual (colDateKey col a) ≤ OrderDual.toDual (colDateKey col b) := by
    intro hdir a b
    subst hdir
    rcases hcol with h | h | h <;> subst h <;>
      exact cmpOrd_desc_le _ _
  have hrefl : ∀ a b : ClientWithStats, colDateKey col a = colDateKey col b →
      sortLe col dir a b := by
    intro a b hk
    cases dir
    · exact ((hasc rfl) a b).mpr (le_of_eq hk)
    · exact ((hdesc rfl) a b).mpr (le_of_eq (congrArg OrderDual.toDual hk))
  refine ⟨List.perm_insertionSort _ l, ?_, ?_, ?_⟩
  · intro hdir
    exact sortedKey_insertionSort (hasc hdir) l
  · intro hdir
    exact sortedKey_insertionSort (hdesc hdir) l
  · intro v
    exact filter_key_insertionSort hrefl l v

/-- C6 witness: the amended theorem applied to the concrete two-row page
sorted ascending by earliest start. -/
theorem C6_date_sort_witness :
    (sortedClients exPageC8 (some SortColumn.earliest_start) SortDirection.asc).Perm exPageC8 ∧
    List.Sorted (fun a b => colDateKey SortColumn.earliest_start a ≤
        colDateKey SortColumn.earliest_start b)
      (sortedClients exPageC8 (some SortColumn.earliest_start) SortDirection.asc) := by
  have h := C6_date_sort exPageC8 SortColumn.earliest_start SortDirection.asc
    (Or.inr (Or.inl rfl))
  exact ⟨h.1, h.2.1 rfl⟩

/-- C6 counterexample: the claim says null dates sort as the earliest
possible value, but a record dated before 1970 has a negative instant
and sorts ahead of a record with a null date; the output below is not
sorted when null is read as bottom. -/
theorem C6_counterexample :
    sortedClients exPageC8 (some SortColumn.earliest_start) SortDirection.asc = exPageC8 ∧
    ¬ (nullBotKey clientPre1970.earliest_start ≤ nullBotKey clientNullDate.earliest_start) := by
  constructor
  · decide
  · decide

/-- C7: pagination returns exactly the elements at indices
[(page-1)*size, page*size): element i of the slice is element
(page-1)*size+i of the list when i < size, an out-of-range page gives
the empty slice, and on the 47-record example with page size 25 pages
1, 2 and 3 have 25, 22 and 0 records. -/
theorem C7_pagination (l : List ClientWithStats) (page size : Nat) (_hp : 1 ≤ page) :
    (∀ i : Nat,
      (paginatedClients l page size)[i]? =
        if i < size then l[(page - 1) * size + i]? else none) ∧
    (l.length ≤ (page - 1) * size → paginatedClients l page size = []) ∧
    (paginatedClients demoClients 1 25).length = 25 ∧
    (paginatedClients demoClients 2 25).length = 22 ∧
    (paginatedClients demoClients 3 25).length = 0 := by
  refine ⟨?_, ?_, ?_, ?_, ?_⟩
  · intro i
    unfold paginatedClients
    by_cases h : i < size
    · rw [if_pos h, List.getElem?_take, if_pos h, List.getElem?_drop]
    · rw [if_neg h, List.getElem?_take, if_neg h]
  · intro hlen
    unfold paginatedClients
    rw [List.drop_eq_nil_of_le hlen, List.take_nil]
  · simp [paginatedClients, demoClients]
  · simp [paginatedClients, demoClients]
  · simp [paginatedClients, demoClients]

/-- C7 witness: the pagination theorem applied to the 47-record example
at page 2 of size 25. -/
theorem C7_pagination_witness : (paginatedClients demoClients 2 25).length = 22 :=
  (C7_pagination demoClients 2 25 (by norm_num)).2.2.2.1

/-- C8 (amended): the select-all control never selects beyond the
visible page; it clears the selection exactly when the selection size
equals the visible row count (even if the selected ids are not the
visible ones), and otherwise selects exactly the visible ids. -/
theorem C8_select_all (sel : Finset String) (page : List ClientWithStats) :
    handleSelectAll sel page ⊆ visibleIds page ∧
    (sel.card = page.length → handleSelectAll sel page = ∅) ∧
    (sel.card ≠ page.length → handleSelectAll sel page = visibleIds page) := by
  unfold handleSelectAll
  by_cases h : sel.card = page.length
  · rw [if_pos h]
    exact ⟨Finset.empty_subset _, fun _ => rfl, fun hne => absurd h hne⟩
  · rw [if_neg h]
    exact ⟨Finset.Subset.refl _, fun he => absurd he h, fun _ => rfl⟩

/-- C8 witness: the amended theorem applied to the concrete stale
selection of two foreign ids against a two-row page. -/
theorem C8_select_all_witness : handleSelectAll exSelectionC8 exPageC8 = ∅ :=
  (C8_select_all exSelectionC8 exPageC8).2.1 (by decide)

/-- C8 counterexample: with two foreign ids selected and a two-row page
visible, the visible ids are not all selected, yet the control clears
the selection instead of selecting the visible ids — the code compares
sizes, not sets. -/
theorem C8_counterexample :
    ¬ (visibleIds exPageC8 ⊆ exSelectionC8) ∧
    handleSelectAll exSelectionC8 exPageC8 = ∅ ∧
    visibleIds exPageC8 ≠ (∅ : Finset String) := by
  refine ⟨?_, ?_, ?_⟩ <;> decide

/-! ### Claim theorems for the aggregation: total budget and dates -/

theorem foldl_add_getD (l : List Project) (a : Int) :
    l.foldl (fun s p => s + p.budget.getD 0) a = a + (l.map fun p => p.budget.getD 0).sum := by
  induction l generalizing a with
  | nil => simp
  | cons p t ih => simp [ih, add_assoc]

theorem sum_truthy_filter (pc : String) (ps : List Project) :
    ((ps.filter fun p => p.currency == pc && truthyNum p.budget).map
        fun p => p.budget.getD 0).sum =
      ((ps.filter fun p => p.currency == pc).map fun p => p.budget.getD 0).sum := by
  induction ps with
  | nil => rfl
  | cons p t ih =>
    by_cases hc : p.currency = pc
    · by_cases hb : truthyNum p.budget = true
      · simp [List.filter_cons, hc, hb, ih]
      · have hz : p.budget.getD 0 = 0 := by
          cases hB : p.budget with
          | none => rfl
          | some b =>
            simp [truthyNum, hB] at hb
            simp [hB, hb]
        simp [List.filter_cons, hc, hb, ih, hz]
    · simp [List.filter_cons, hc, ih]

theorem sum_filterMap_budget (l : List Project) :
    (l.filterMap Project.budget).sum = (l.map fun p => p.budget.getD 0).sum := by
  induction l with
  | nil => rfl
  | cons p t ih =>
    cases hB : p.budget with
    | none => simp [List.filterMap_cons, hB, ih]
    | some b => simp [List.filterMap_cons, hB, ih]

/-- C2: the total budget is the sum of the budgets of exactly the
projects whose currency equals the primary currency (null budgets
contribute nothing, other currencies are excluded, never converted);
on the USD 100 / USD 50 / EUR 1000 example the primary currency is
USD and the total is 150. -/
theorem C2_total_budget :
    (∀ ps : List Project,
      totalBudget ps =
        ((ps.filter fun p => p.currency == primaryCurrency ps).filterMap Project.budget).sum) ∧
    primaryCurrency exProjectsC2 = "USD" ∧ totalBudget exProjectsC2 = 150 := by
  refine ⟨?_, by decide, by decide⟩
  intro ps
  unfold totalBudget
  rw [foldl_add_getD, zero_add, sum_truthy_filter, sum_filterMap_budget]

theorem starts_of_projectDates (ps : List Project)
    (hs : ∀ p ∈ ps, p.start_date ≠ some "") :
    ((projectDates ps).map Prod.fst).filterMap id = ps.filterMap Project.start_date := by
  induction ps with
  | nil => rfl
  | cons p t ih =>
    have ht := ih fun q hq => hs q (List.mem_cons_of_mem p hq)
    have hp := hs p (List.mem_cons_self p t)
    simp only [projectDates, List.map_cons, List.filter_cons] at ht ⊢
    by_cases hkeep : (truthyStr p.start_date || truthyStr p.end_date) = true
    · rw [if_pos hkeep]
      cases hsd : p.start_date with
      | none => simpa [List.filterMap_cons, hsd] using ht
      | some s => simpa [List.filterMap_cons, hsd] using ht
    · rw [if_neg hkeep]
      have hnone : p.start_date = none := by
        cases hsd : p.start_date with
        | none => rfl
        | some s =>
          rcases eq_or_ne s "" with hse | hse
          · exact absurd (hse ▸ hsd) hp
          · exact absurd hkeep (by simp [truthyStr, hsd, hse])
      simpa [List.filterMap_cons, hnone] using ht

theorem ends_of_projectDates (ps : List Project)
    (he : ∀ p ∈ ps, p.end_date ≠ some "") :
    ((projectDates ps).map Prod.snd).filterMap id = ps.filterMap Project.end_date := by
  induction ps with
  | nil => rfl
  | cons p t ih =>
    have ht := ih fun q hq => he q (List.mem_cons_of_mem p hq)
    have hp := he p (List.mem_cons_self p t)
    simp only [projectDates, List.map_cons, List.filter_cons] at ht ⊢
    by_cases hkeep : (truthyStr p.start_date || truthyStr p.end_date) = true
    · rw [if_pos hkeep]
      cases hed : p.end_date with
      | none => simpa [List.filterMap_cons, hed] using ht
      | some s => simpa [List.filterMap_cons, hed] using ht
    · rw [if_neg hkeep]
      have hnone : p.end_date = none := by
        cases hed : p.end_date with
        | none => rfl
        | some s =>
          rcases eq_or_ne s "" with hse | hse
          · exact absurd (hse ▸ hed) hp
          · exact absurd hkeep (by simp [truthyStr, hed, hse])
      simpa [List.filterMap_cons, hnone] using ht

theorem jsHeadOrNull_eq_head? (l : List String) (h : ∀ s ∈ l, s ≠ "") :
    jsHeadOrNull l = l.head? := by
  cases l with
  | nil => rfl
  | cons s t => simp [jsHeadOrNull, h s (List.mem_cons_self s t)]

/-- C3: the earliest start is the lexicographic minimum of the non-null
start dates of the project set and the latest end the maximum of the
non-null end dates, each null when no such date exists (stated for date
strings that are never the empty string, as ISO dates are). -/
theorem C3_earliest_latest (ps : List Project)
    (hs : ∀ p ∈ ps, p.start_date ≠ some "") (he : ∀ p ∈ ps, p.end_date ≠ some "") :
    earliestStart ps = olMin (ps.filterMap Project.start_date) ∧
    latestEnd ps = olMax (ps.filterMap Project.end_date) := by
  constructor
  · unfold earliestStart
    by_cases hlen : (projectDates ps).length > 0
    · rw [if_pos hlen, starts_of_projectDates ps hs]
      have hne : ∀ s ∈ List.insertionSort (fun a b : String => a ≤ b)
          (ps.filterMap Project.start_date), s ≠ "" := by
        intro s hsmem hempty
        obtain ⟨p, hpmem, hps⟩ :=
          List.mem_filterMap.mp ((List.mem_insertionSort _).mp hsmem)
        exact hs p hpmem (hempty ▸ hps)
      rw [jsHeadOrNull_eq_head? _ hne, head?_insertionSort]
    · rw [if_neg hlen]
      have h0 : projectDates ps = [] := by
        rcases Nat.eq_zero_or_pos (projectDates ps).length with h | h
        · exact List.length_eq_zero.mp h
        · exact absurd h hlen
      have hlist := starts_of_projectDates ps hs
      rw [h0] at hlist
      simp only [List.map_nil, List.filterMap_nil] at hlist
      rw [← hlist]
      rfl
  · unfold latestEnd
    by_cases hlen : (projectDates ps).length > 0
    · rw [if_pos hlen, ends_of_projectDates ps he]
      have hne : ∀ s ∈ (List.insertionSort (fun a b : String => a ≤ b)
          (ps.filterMap Project.end_date)).reverse, s ≠ "" := by
        intro s hsmem hempty
        obtain ⟨p, hpmem, hps⟩ :=
          List.mem_filterMap.mp ((List.mem_insertionSort _).mp (List.mem_reverse.mp hsmem))
        exact he p hpmem (hempty ▸ hps)
      rw [jsHeadOrNull_eq_head? _ hne, reverse_head?_insertionSort]
    · rw [if_neg hlen]
      have h0 : projectDates ps = [] := by
        rcases Nat.eq_zero_or_pos (projectDates ps).length with h | h
        · exact List.length_eq_zero.mp h
        · exact absurd h hlen
      have hlist := ends_of_projectDates ps he
      rw [h0] at hlist
      simp only [List.map_nil, List.filterMap_nil] at hlist
      rw [← hlist]
      rfl

/-- C3 witness: on the worked example with start dates 2024-03-01,
2024-01-15 and null the earliest start is 2024-01-15, and the latest
end 2024-07-01. -/
theorem C3_earliest_latest_witness :
    earliestStart exProjectsC3 = some ("2024-01-15") ∧
    latestEnd exProjectsC3 = some ("2024-07-01") := by
  have h := C3_earliest_latest exProjectsC3 (by decide) (by decide)
  refine ⟨?_, ?_⟩
  · rw [h.1]
    have hfm : List.filterMap Project.start_date exProjectsC3 =
        ["2024-03-01", "2024-01-15"] := rfl
    rw [hfm]
    show some (min ("2024-03-01") ("2024-01-15")) = some ("2024-01-15")
    rw [min_eq_right (by rw [String.le_iff_toList_le]; decide)]
  · rw [h.2]
    have hfm : List.filterMap Project.end_date exProjectsC3 =
        ["2024-04-01", "2024-07-01"] := rfl
    rw [hfm]
    show some (max ("2024-04-01") ("2024-07-01")) = some ("2024-07-01")
    rw [max_eq_right (by rw [String.le_iff_toList_le]; decide)]

/-! ### Claim theorems for the aggregation: primary currency -/

theorem bump_keys (l : List (String × Nat)) (c : String) :
    (bump l c).map Prod.fst =
      if c ∈ l.map Prod.fst then l.map Prod.fst else l.map Prod.fst ++ [c] := by
  induction l with
  | nil => rfl
  | cons e t ih =>
    by_cases hk : e.1 = c
    · simp [bump, hk]
    · simp only [bump, if_neg hk, List.map_cons, ih]
      by_cases hmem : c ∈ t.map Prod.fst
      · simp [hmem, Ne.symm hk]
      · simp [hmem, Ne.symm hk]

theorem countVal_bump_self (l : List (String × Nat)) (c : String) :
    countVal (bump l c) c = countVal l c + 1 := by
  induction l with
  | nil => simp [bump, countVal, List.find?]
  | cons e t ih =>
    obtain ⟨k, v⟩ := e
    by_cases hk : k = c
    · simp [bump, hk, countVal, List.find?]
    · have hbeq : (k == c) = false := beq_eq_false_iff_ne.mpr hk
      simp only [bump, if_neg hk, countVal, List.find?, hbeq]
      exact ih

theorem countVal_bump_ne (l : List (String × Nat)) (c c2 : String) (h : c2 ≠ c) :
    countVal (bump l c) c2 = countVal l c2 := by
  induction l with
  | nil =>
    have hbeq : (c == c2) = false := beq_eq_false_iff_ne.mpr (Ne.symm h)
    simp [bump, countVal, List.find?, hbeq]
  | cons e t ih =>
    obtain ⟨k, v⟩ := e
    by_cases hk : k = c
    · have hbeq : (k == c2) = false :=
        beq_eq_false_iff_ne.mpr fun hkc2 => h (hkc2 ▸ hk)
      simp only [bump, if_pos hk, countVal, List.find?, hbeq]
    · by_cases hk2 : k = c2
      · have hbeq : (k == c2) = true := beq_iff_eq.mpr hk2
        simp only [bump, if_neg hk, countVal, List.find?, hbeq]
      · have hbeq : (k == c2) = false := beq_eq_false_iff_ne.mpr hk2
        simp only [bump, if_neg hk, countVal, List.find?, hbeq]
        exact ih

theorem bump_keys_nodup (l : List (String × Nat)) (c : String)
    (hn : (l.map Prod.fst).Nodup) : ((bump l c).map Prod.fst).Nodup := by
  rw [bump_keys]
  by_cases hmem : c ∈ l.map Prod.fst
  · rw [if_pos hmem]
    exact hn
  · rw [if_neg hmem]
    simp [List.nodup_append, hmem, hn]

theorem currencyCounts_append (ps : List Project) (p : Project) :
    currencyCounts (ps ++ [p]) =
      if tallied p then bump (currencyCounts ps) p.currency else currencyCounts ps := by
  simp [currencyCounts, List.foldl_append]

theorem tallyBy_append (sel : Project → Bool) (ps : List Project) (p : Project) (c : String) :
    tallyBy sel (ps ++ [p]) c =
      tallyBy sel ps c + (if sel p && p.currency == c then 1 else 0) := by
  simp only [tallyBy, List.filter_append, List.length_append]
  by_cases h : (sel p && p.currency == c) = true
  · simp [h]
  · simp [h]

theorem firstSeenBy_append (sel : Project → Bool) (ps : List Project) (p : Project) :
    firstSeenBy sel (ps ++ [p]) =
      if sel p then
        (if p.currency ∈ firstSeenBy sel ps then firstSeenBy sel ps
          else firstSeenBy sel ps ++ [p.currency])
      else firstSeenBy sel ps := by
  simp only [firstSeenBy, List.filter_append, List.map_append, List.foldl_append]
  by_cases h : sel p = true
  · simp [h]
  · simp [h]

theorem currencyCounts_keys (ps : List Project) :
    (currencyCounts ps).map Prod.fst = firstSeenBy tallied ps := by
  induction ps using List.reverseRecOn with
  | nil => rfl
  | append_singleton t p ih =>
    rw [currencyCounts_append, firstSeenBy_append]
    by_cases h : tallied p = true
    · rw [if_pos h, if_pos h, bump_keys, ih]
    · rw [if_neg h, if_neg h, ih]

theorem currencyCounts_val (ps : List Project) (c : String) :
    countVal (currencyCounts ps) c = tallyBy tallied ps c := by
  induction ps using List.reverseRecOn with
  | nil => simp [currencyCounts, countVal, List.find?, tallyBy]
  | append_singleton t p ih =>
    rw [currencyCounts_append, tallyBy_append]
    by_cases h : tallied p = true
    · rw [if_pos h]
      by_cases hc : p.currency = c
      · rw [hc, countVal_bump_self, ih]
        simp [h, hc]
      · rw [countVal_bump_ne _ _ _ (Ne.symm hc), ih]
        simp [h, hc]
    · rw [if_neg h]
      have hsel : (tallied p && (p.currency == c)) = false := by
        simp [Bool.eq_false_iff.mpr h]
      rw [hsel]
      simp [ih]

theorem currencyCounts_keys_nodup (ps : List Project) :
    ((currencyCounts ps).map Prod.fst).Nodup := by
  induction ps using List.reverseRecOn with
  | nil => exact List.nodup_nil
  | append_singleton t p ih =>
    rw [currencyCounts_append]
    by_cases h : tallied p = true
    · rw [if_pos h]
      exact bump_keys_nodup _ _ ih
    · rw [if_neg h]
      exact ih

theorem countVal_of_mem (l : List (String × Nat)) (e : String × Nat)
    (hn : (l.map Prod.fst).Nodup) (he : e ∈ l) : countVal l e.1 = e.2 := by
  induction l with
  | nil => exact absurd he (List.not_mem_nil e)
  | cons f t ih =>
    simp only [List.map_cons, List.nodup_cons] at hn
    rcases List.mem_cons.mp he with hef | het
    · rw [hef]
      simp [countVal, List.find?]
    · have hne : f.1 ≠ e.1 := by
        intro hfe
        exact hn.1 (hfe ▸ List.mem_map_of_mem Prod.fst het)
      simp only [countVal, List.find?]
      rw [show (f.1 == e.1) = false from beq_eq_false_iff_ne.mpr hne]
      exact ih hn.2 het

/-- C1 (amended): the primary currency is the most frequent currency
among the projects whose currency is non-empty and whose budget is
non-null and non-zero (the truthiness guard of the code), ties broken
by first occurrence in input order, defaulting to USD when no project
qualifies. -/
theorem C1_primary_currency (ps : List Project) :
    primaryCurrency ps = specPrimaryBy tallied ps := by
  have hA := currencyCounts_keys ps
  have hB := currencyCounts_val ps
  have hN := currencyCounts_keys_nodup ps
  simp only [primaryCurrency, specPrimaryBy]
  rw [← hA]
  simp only [← hB]
  by_cases hlen : (currencyCounts ps).length > 0
  · rw [if_pos hlen]
    have hsne : List.insertionSort countDesc (currencyCounts ps) ≠ [] := by
      intro h0'
      have hp := List.perm_insertionSort countDesc (currencyCounts ps)
      rw [h0'] at hp
      rw [hp.symm.eq_nil] at hlen
      exact Nat.lt_irrefl 0 hlen
    cases hs : List.insertionSort countDesc (currencyCounts ps) with
    | nil => exact absurd hs hsne
    | cons m mrest =>
      have hmmem : m ∈ currencyCounts ps := by
        have hms : m ∈ List.insertionSort countDesc (currencyCounts ps) := by
          rw [hs]
          exact List.mem_cons_self m mrest
        exact (List.mem_insertionSort countDesc).mp hms
      have hmax : ∀ e ∈ currencyCounts ps, e.2 ≤ m.2 := by
        have hsorted : List.Sorted
            (fun a b : String × Nat =>
              OrderDual.toDual a.2 ≤ OrderDual.toDual b.2)
            (List.insertionSort countDesc (currencyCounts ps)) :=
          sortedKey_insertionSort (fun a b => Iff.rfl) (currencyCounts ps)
        intro e he
        have hes : e ∈ List.insertionSort countDesc (currencyCounts ps) :=
          (List.mem_insertionSort countDesc).mpr he
        rw [hs] at hes hsorted
        rcases List.mem_cons.mp hes with hem | het
        · rw [hem]
        · exact List.rel_of_sorted_cons hsorted e het
      have hstab :
          (List.insertionSort countDesc (currencyCounts ps)).filter
              (fun e => decide (e.2 = m.2)) =
            (currencyCounts ps).filter (fun e => decide (e.2 = m.2)) :=
        filter_key_insertionSort
          (k := Prod.snd) (fun a b hk => le_of_eq hk.symm) (currencyCounts ps) m.2
      rw [hs] at hstab
      simp only [List.filter_cons, decide_eq_true_eq, eq_self_iff_true, if_true] at hstab
      have hcongr :
          (currencyCounts ps).filter
              (fun e => ((currencyCounts ps).map Prod.fst).all
                fun c2 => decide (countVal (currencyCounts ps) c2 ≤
                  countVal (currencyCounts ps) e.1)) =
            (currencyCounts ps).filter (fun e => decide (e.2 = m.2)) := by
        apply List.filter_congr
        intro e he
        have hce : countVal (currencyCounts ps) e.1 = e.2 := countVal_of_mem _ e hN he
        have hcm : countVal (currencyCounts ps) m.1 = m.2 := countVal_of_mem _ m hN hmmem
        rw [Bool.eq_iff_iff]
        simp only [List.all_eq_true, decide_eq_true_eq]
        constructor
        · intro hall
          have hml := hall m.1 (List.mem_map_of_mem Prod.fst hmmem)
          rw [hcm, hce] at hml
          exact le_antisymm (hmax e he) hml
        · intro hem c2 hc2
          obtain ⟨e2, he2, he2c⟩ := List.mem_map.mp hc2
          rw [← he2c, countVal_of_mem _ e2 hN he2, hce, hem]
          exact hmax e2 he2
      rw [List.filter_map]
      simp only [Function.comp_def]
      rw [hcongr, ← hstab]
      rfl
  · rw [if_neg hlen]
    have hnil : currencyCounts ps = [] :=
      List.length_eq_zero.mp (Nat.le_zero.mp (Nat.not_lt.mp hlen))
    rw [hnil]
    rfl

/-- C1 counterexample: with projects EUR (budget 5), USD (budget 0),
USD (budget 0), the tally of the claim (over non-null budgets) makes
USD the primary currency with two occurrences, but the truthiness guard
of the code skips the zero budgets and returns EUR. -/
theorem C1_counterexample :
    primaryCurrency exProjectsC1 = "EUR" ∧
    specPrimaryBy nonNullBudget exProjectsC1 = "USD" := by
  constructor <;> decide

/-! ### Claim theorems for the mutation operations -/

/-- C4 (amended): the five operations with a try/catch boundary
(create client, update client, create project, update project, update
status) return the uniform result shape for every data-access outcome,
thrown exceptions included: success with the written row's identity, or
success false with an error message.  The two archive operations do not
catch: a store error propagates to the caller as a thrown Error with a
prefixed message. -/
theorem C4_mutation_boundaries :
    (∀ (d : CreateClientData) (db : ClientWriteRow → DbOutcome),
      (createClient d db).success = true ∧ (createClient d db).clientId.isSome = true ∨
      (createClient d db).success = false ∧ (createClient d db).error.isSome = true) ∧
    (∀ (cid : String) (d : CreateClientData) (db : String → ClientWriteRow → DbOutcome),
      (updateClient cid d db).success = true ∧ (updateClient cid d db).clientId.isSome = true ∨
      (updateClient cid d db).success = false ∧ (updateClient cid d db).error.isSome = true) ∧
    (∀ (d : CreateProjectData) (db : ProjectInsertRow → DbOutcome),
      (createProject d db).success = true ∧ (createProject d db).projectId.isSome = true ∨
      (createProject d db).success = false ∧ (createProject d db).error.isSome = true) ∧
    (∀ (pid : String) (d : CreateProjectData) (db : String → ProjectUpdateRow → DbOutcome),
      (updateProject pid d db).success = true ∧ (updateProject pid d db).projectId.isSome = true ∨
      (updateProject pid d db).success = false ∧ (updateProject pid d db).error.isSome = true) ∧
    (∀ (cid : String) (st : ClientStatus) (db : String → ClientStatus → WriteOutcome),
      (updateClientStatus cid st db).success = true ∨
      (updateClientStatus cid st db).success = false ∧
        (updateClientStatus cid st db).error.isSome = true) ∧
    (∀ (cid : String) (now : Int) (store : Store) (m : String),
      (archiveClient cid now store (ArchiveOutcome.err m)).result =
        Except.error ("Failed to archive client: " ++ m)) ∧
    (∀ (ids : List String) (now : Int) (store : Store) (m : String),
      ids ≠ [] →
      (archiveClients ids now store (ArchiveOutcome.err m)).result =
        Except.error ("Failed to archive clients: " ++ m)) := by
  refine ⟨?_, ?_, ?_, ?_, ?_, ?_, ?_⟩
  · intro d db
    cases hdb : db (clientWriteRow d) with
    | ok row => simp [createClient, clientWriteResult, hdb]
    | err code message =>
      right
      simp only [createClient, clientWriteResult, hdb]
      split
      · exact ⟨rfl, rfl⟩
      · split
        · exact ⟨rfl, rfl⟩
        · exact ⟨rfl, rfl⟩
    | thrown mm => simp [createClient, clientWriteResult, hdb]
  · intro cid d db
    cases hdb : db cid (clientWriteRow d) with
    | ok row => simp [updateClient, clientWriteResult, hdb]
    | err code message =>
      right
      simp only [updateClient, clientWriteResult, hdb]
      split
      · exact ⟨rfl, rfl⟩
      · split
        · exact ⟨rfl, rfl⟩
        · exact ⟨rfl, rfl⟩
    | thrown mm => simp [updateClient, clientWriteResult, hdb]
  · intro d db
    cases hdb : db (projectInsertRow d) with
    | ok row => simp [createProject, projectWriteResult, hdb]
    | err code message => simp [createProject, projectWriteResult, hdb]
    | thrown mm => simp [createProject, projectWriteResult, hdb]
  · intro pid d db
    cases hdb : db pid (projectUpdateRow d) with
    | ok row => simp [updateProject, projectWriteResult, hdb]
    | err code message => simp [updateProject, projectWriteResult, hdb]
    | thrown mm => simp [updateProject, projectWriteResult, hdb]
  · intro cid st db
    cases hdb : db cid st with
    | ok => simp [updateClientStatus, hdb]
    | err message => simp [updateClientStatus, hdb]
    | thrown mm => simp [updateClientStatus, hdb]
  · intro cid now store m
    rfl
  · intro ids now store m hne
    unfold archiveClients
    rw [if_neg (fun h0 => hne (List.length_eq_zero.mp h0))]

/-- C4 witness: a thrown exception inside createClient is converted into
the failure shape, and a nonempty bulk archive propagates the store
error as an exception. -/
theorem C4_mutation_boundaries_witness :
    ((createClient exClientData (fun _ => DbOutcome.thrown none)).success = false ∧
      (createClient exClientData (fun _ => DbOutcome.thrown none)).error.isSome = true) ∧
    (archiveClients [("c1")] 0 { clients := [] } (ArchiveOutcome.err ("boom"))).result =
      Except.error ("Failed to archive clients: " ++ "boom") := by
  constructor
  · rcases C4_mutation_boundaries.1 exClientData (fun _ => DbOutcome.thrown none) with h | h
    · exact absurd h.1 (by decide)
    · exact h
  · exact C4_mutation_boundaries.2.2.2.2.2.2 [("c1")] 0 { clients := [] } ("boom")
      (List.cons_ne_nil _ _)

/-- C4 counterexample: the claim says every mutation operation,
archiving included, converts data-access errors into the uniform result
shape instead of letting them propagate; but archiveClient rethrows a
store error as an uncaught exception. -/
theorem C4_counterexample :
    (archiveClient ("c1") 0 { clients := [] } (ArchiveOutcome.err ("boom"))).result =
      Except.error ("Failed to archive client: " ++ "boom") := rfl

/-- C9: for create and update client, a store error with code 23505
naming email yields the email-specific message, one naming phone (and
not email) the phone-specific message; any other store failure with a
non-empty message is passed through; success returns the written row's
identity. -/
theorem C9_uniqueness_conflicts :
    (∀ (d : CreateClientData) (msg : String),
      jsIncludes msg ("email") = true →
      createClient d (fun _ => DbOutcome.err ("23505") msg) =
        { success := false, error := some emailConflictMsg, clientId := none }) ∧
    (∀ (d : CreateClientData) (msg : String),
      jsIncludes msg ("email") = false → jsIncludes msg ("phone") = true →
      createClient d (fun _ => DbOutcome.err ("23505") msg) =
        { success := false, error := some phoneConflictMsg, clientId := none }) ∧
    (∀ (d : CreateClientData) (code msg : String),
      (code = "23505" → jsIncludes msg ("email") = false ∧ jsIncludes msg ("phone") = false) →
      msg ≠ "" →
      createClient d (fun _ => DbOutcome.err code msg) =
        { success := false, error := some msg, clientId := none }) ∧
    (∀ (d : CreateClientData) (row : DbRow),
      createClient d (fun _ => DbOutcome.ok row) =
        { success := true, error := none, clientId := some row.id }) ∧
    (∀ (cid : String) (d : CreateClientData) (msg : String),
      jsIncludes msg ("email") = true →
      updateClient cid d (fun _ _ => DbOutcome.err ("23505") msg) =
        { success := false, error := some emailConflictMsg, clientId := none }) ∧
    (∀ (cid : String) (d : CreateClientData) (msg : String),
      jsIncludes msg ("email") = false → jsIncludes msg ("phone") = true →
      updateClient cid d (fun _ _ => DbOutcome.err ("23505") msg) =
        { success := false, error := some phoneConflictMsg, clientId := none }) ∧
    (∀ (cid : String) (d : CreateClientData) (code msg : String),
      (code = "23505" → jsIncludes msg ("email") = false ∧ jsIncludes msg ("phone") = false) →
      msg ≠ "" →
      updateClient cid d (fun _ _ => DbOutcome.err code msg) =
        { success := false, error := some msg, clientId := none }) ∧
    (∀ (cid : String) (d : CreateClientData) (row : DbRow),
      updateClient cid d (fun _ _ => DbOutcome.ok row) =
        { success := true, error := none, clientId := some row.id }) := by
  refine ⟨?_, ?_, ?_, ?_, ?_, ?_, ?_, ?_⟩
  · intro d msg h1
    simp [createClient, clientWriteResult, h1]
  · intro d msg h1 h2
    simp [createClient, clientWriteResult, h1, h2]
  · intro d code msg hcond hmsg
    by_cases hcode : code = "23505"
    · obtain ⟨h1, h2⟩ := hcond hcode
      simp [createClient, clientWriteResult, hcode, h1, h2, hmsg]
    · simp [createClient, clientWriteResult, hcode, hmsg]
  · intro d row
    simp [createClient, clientWriteResult]
  · intro cid d msg h1
    simp [updateClient, clientWriteResult, h1]
  · intro cid d msg h1 h2
    simp [updateClient, clientWriteResult, h1, h2]
  · intro cid d code msg hcond hmsg
    by_cases hcode : code = "23505"
    · obtain ⟨h1, h2⟩ := hcond hcode
      simp [updateClient, clientWriteResult, hcode, h1, h2, hmsg]
    · simp [updateClient, clientWriteResult, hcode, hmsg]
  · intro cid d row
    simp [updateClient, clientWriteResult]

/-- C9 witness: a duplicate-email conflict message on create and a
duplicate-phone conflict message on update map to their field-specific
errors. -/
theorem C9_uniqueness_conflicts_witness :
    createClient exClientData
        (fun _ => DbOutcome.err ("23505")
          ("duplicate key value violates unique constraint clients_email_key")) =
      { success := false, error := some emailConflictMsg, clientId := none } ∧
    updateClient ("c1") exClientData
        (fun _ _ => DbOutcome.err ("23505")
          ("duplicate key value violates unique constraint clients_phone_key")) =
      { success := false, error := some phoneConflictMsg, clientId := none } :=
  ⟨C9_uniqueness_conflicts.1 exClientData _ (by decide),
   C9_uniqueness_conflicts.2.2.2.2.2.1 ("c1") exClientData _ (by decide) (by decide)⟩

/-- C10: the bulk archive called with an empty id list returns
successfully, issues no data-store request, and leaves the store
unchanged, for every store state and would-be call outcome. -/
theorem C10_empty_archive (now : Int) (store : Store) (outcome : ArchiveOutcome) :
    archiveClients [] now store outcome =
      { result := Except.ok (), store := store, requests := 0 } := rfl

end ClientMgmt
